import Mathlib

/-!
Verification of the expansion and classification engine of
`converters/resourcegroup_yaml_to_xml.py`.

The Python program converts a directory tree of resource topology data into
two schema-ordered XML documents.  This file gives a shallow embedding of the
pure transformation core: ordered dictionaries become insertion-ordered
association lists, Python numbers become `Nat`/`Int`, fallible dynamic code
returns `Option`/`Except`, and the external collaborators (the YAML parser,
the `dateparser` library, the XML serializer) are abstracted at the narrow
interfaces through which the core uses them.  Helpers imported from
`convertlib` are not part of the sources and are modelled from the
specification; each such definition is marked in its doc comment.
-/

/-! ## Ordered dictionaries

Python dicts preserve insertion order; assignment to an existing key keeps
its position, assignment to a fresh key appends.  Keys of a real dict are
unique, so the first-occurrence semantics below agrees with Python wherever
a dict can actually arise. -/

/-- Lookup in an insertion-ordered association list (Python `d[k]` / `d.get(k)`). -/
def dlookup {α : Type} : List (String × α) → String → Option α
  | [], _ => none
  | p :: rest, k => if p.1 == k then some p.2 else dlookup rest k

/-- Key membership (Python `k in d`). -/
def dmem {α : Type} (d : List (String × α)) (k : String) : Bool :=
  (dlookup d k).isSome

/-- Assignment `d[k] = v`: replace in place if the key exists, else append. -/
def dinsert {α : Type} : List (String × α) → String → α → List (String × α)
  | [], k, v => [(k, v)]
  | p :: rest, k, v => if p.1 == k then (k, v) :: rest else p :: dinsert rest k v

/-- Key removal (Python `d.pop(k, None)`). -/
def dpop {α : Type} (d : List (String × α)) (k : String) : List (String × α) :=
  d.filter (fun p => !(p.1 == k))

/-! ## VO ownership and the chart URL (`get_charturl`, `expand_voownership`) -/

/-- Uppercase hexadecimal digit, as used by the Python `quote` implementation. -/
def hexDigit (n : Nat) : Char :=
  if n < 10 then Char.ofNat (48 + n) else Char.ofNat (55 + n)

/-- Percent-encoding of one character exactly as Python `urllib.parse.quote_plus`
does for the ASCII range used by this program: ASCII alphanumerics and
`_` `.` `-` `~` pass through, a space becomes `+`, and every other character
becomes `%XX` with uppercase hex digits. -/
def quotePlusChar (c : Char) : String :=
  if c.isAlphanum || c == '_' || c == '.' || c == '-' || c == '~' then String.singleton c
  else if c == ' ' then "+"
  else String.mk ['%', hexDigit (c.toNat / 16), hexDigit (c.toNat % 16)]

/-- Python `urllib.parse.quote_plus` on ASCII strings. -/
def quote_plus (s : String) : String :=
  String.join (s.toList.map quotePlusChar)

/-- Python `urllib.parse.urlencode`: quote each key and value and join the
pairs as `k=v` with `&`, keeping the dictionary insertion order. -/
def urlencode (pairs : List (String × String)) : String :=
  String.intercalate "&" (pairs.map (fun p => quote_plus p.1 ++ "=" ++ quote_plus p.2))

/-- Python `s.rstrip(c)` for a single strip character. -/
def rstripChar (s : String) (c : Char) : String :=
  ((s.toList.reverse.dropWhile (fun x => x == c)).reverse).asString

/-- Model of `get_charturl(ownership)` (source lines 167 to 189): build the
`chd` data string `"p1,p2,..."` and the `chl` label string
`"p1(n1%)|p2(n2%)|..."` (with the name `(Other)` displayed as `Other`),
strip the trailing separator of each, and urlencode the five query fields
`chco`, `cht`, `chd`, `chs`, `chl` in that order.  Percentages are modelled
as `Nat`, matching how Python formats integer percentages with `%s`. -/
def get_charturl (ownership : List (String × Nat)) : String :=
  let chd := rstripChar (ownership.foldl (fun acc p => acc ++ toString p.2 ++ ",") "") ','
  let chl := rstripChar (ownership.foldl (fun acc p =>
      acc ++ toString p.2 ++ "(" ++ (if p.1 == "(Other)" then "Other" else p.1) ++ "%)|") "") '|'
  "http://chart.apis.google.com/chart?" ++ urlencode
    [("chco", "00cc00"), ("cht", "p3"), ("chd", "t:" ++ chd), ("chs", "280x65"), ("chl", chl)]

/-- Sum of the percentage values of a VO ownership mapping (Python
`sum(voo.values())`). -/
def sumPercents (l : List (String × Nat)) : Nat :=
  (l.map Prod.snd).sum

/-- Model of `expand_voownership(voownership)` (source lines 192 to 201).
The first component is the `Ownership` entry list: the input mapping,
padded by assigning `voo["(Other)"] = 100 - totalpercent` when the explicit
percentages sum below 100.  (`expand_attr_list_single` from `convertlib` is
not under src/; modelled from the spec it turns the name-to-percent mapping
into the entry list in mapping order, so the entry list is represented by
the association list itself.)  The second component is the `ChartURL`
string, which the source computes from `voownership.items()`: the original
argument, not the padded copy. -/
def expand_voownership (voownership : List (String × Nat)) : List (String × Nat) × String :=
  let totalpercent := sumPercents voownership
  let voo := if totalpercent < 100
             then dinsert voownership "(Other)" (100 - totalpercent)
             else voownership
  (voo, get_charturl voownership)

/-! ## The topology store (`Topology.__init__`, `add_rg`, `get_resource_summary`)

The store field `data` is a dict from facility name to a facility dict.  A
facility dict maps the reserved key `"ID"` to the facility id and every other
key (a site name) to a site dict; a site dict likewise maps `"ID"` to the
site id and every other key (a group name) to an expanded resource-group
record.  The heterogeneous Python values are modelled by sum types.  Of the
expanded resource-group record the summary logic reads only `GroupName`
(its sort key); the record is represented by that projection together with
`GroupID` so that distinct records exist. -/

/-- Projection of an expanded resource-group record to the fields the store
logic inspects. -/
structure RG where
  GroupName : String
  GroupID : Nat
  deriving DecidableEq, Repr

/-- Value in a site dict: the site id under the key `"ID"`, or a
resource-group record under a group name. -/
inductive SVal where
  | sid (n : Nat)
  | grp (g : RG)
  deriving DecidableEq, Repr

/-- Value in a facility dict: the facility id under the key `"ID"`, or a
site dict under a site name. -/
inductive FVal where
  | fid (n : Nat)
  | site (d : List (String × SVal))
  deriving DecidableEq, Repr

/-- The mutable store of `Topology.__init__`, restricted to `self.data`
(the three downtime buckets are modelled separately below). -/
structure Topology where
  data : List (String × List (String × FVal))
  deriving DecidableEq, Repr

/-- Model of `Topology.add_rg(facility, site, rg, rgdata)` (source lines 64
to 70): create the facility and site dicts when their keys are absent, then
assign the record only when the group key is absent.  The result is `none`
when Python would raise: the site key is present but holds the integer site
id, so the membership test `rg not in self.data[facility][site]` is a
`TypeError`.  This can only happen for the group key `"ID"`. -/
def Topology.add_rg (t : Topology) (facility site rg : String) (rgdata : RG) : Option Topology :=
  let data1 := if dmem t.data facility then t.data else dinsert t.data facility []
  match dlookup data1 facility with
  | none => none
  | some fd =>
      let fd1 := if dmem fd site then fd else dinsert fd site (FVal.site [])
      match dlookup fd1 site with
      | none => none
      | some (FVal.fid _) => none
      | some (FVal.site sd) =>
          let sd1 := if dmem sd rg then sd else dinsert sd rg (SVal.grp rgdata)
          some ⟨dinsert data1 facility (dinsert fd1 site (FVal.site sd1))⟩

/-- Record stored in the `data` tree at `facility`/`site`/`rg`, when the path
exists and holds a resource-group record. -/
def Topology.rg_lookup (t : Topology) (facility site rg : String) : Option RG :=
  match dlookup t.data facility with
  | none => none
  | some fd =>
      match dlookup fd site with
      | some (FVal.site sd) =>
          match dlookup sd rg with
          | some (SVal.grp g) => some g
          | _ => none
      | _ => none

/-- Presence of the group KEY at `facility`/`site`, the membership test of
the third guard of `add_rg` (regardless of which value the key holds). -/
def Topology.rg_key_mem (t : Topology) (facility site rg : String) : Bool :=
  match dlookup t.data facility with
  | none => false
  | some fd =>
      match dlookup fd site with
      | some (FVal.site sd) => dmem sd rg
      | _ => false

/-- Lowercased character list of a group name: Python `x["GroupName"].lower()`
restricted to the ASCII range (`Char.toLower` lowercases exactly the ASCII
letters). -/
def lowerChars (s : String) : List Char := s.toList.map Char.toLower

/-- Lexicographic comparison of character lists by code point, the ordering
Python uses to compare the lowercased sort keys. -/
def lexLE : List Char → List Char → Bool
  | [], _ => true
  | _ :: _, [] => false
  | a :: as, b :: bs => if a < b then true else if a = b then lexLE as bs else false

/-- Sort comparison of `rgs.sort(key=lambda x: x["GroupName"].lower())`. -/
def rgLE (a b : RG) : Bool := lexLE (lowerChars a.GroupName) (lowerChars b.GroupName)

/-- Collect the resource-group records of one site dict in insertion order,
skipping the reserved key `"ID"`.  A group key holding an integer would make
the subsequent Python sort raise (the sort key subscripts every element), so
that case is an error. -/
def collectSite : List (String × SVal) → Except Unit (List RG)
  | [] => .ok []
  | (r, v) :: rest =>
      if r == "ID" then collectSite rest
      else
        match v with
        | SVal.sid _ => .error ()
        | SVal.grp g => (collectSite rest).map (fun l => g :: l)

/-- Collect the records of one facility dict, skipping the reserved key
`"ID"`.  A non-`"ID"` key holding the integer id would make Python raise
when iterating `sval.items()`. -/
def collectFac : List (String × FVal) → Except Unit (List RG)
  | [] => .ok []
  | (s, v) :: rest =>
      if s == "ID" then collectFac rest
      else
        match v with
        | FVal.fid _ => .error ()
        | FVal.site sd => do
            let l ← collectSite sd
            let l2 ← collectFac rest
            .ok (l ++ l2)

/-- Flatten the whole `data` tree in insertion order (the nested loops of
`get_resource_summary` before the sort). -/
def collect_rgs : List (String × List (String × FVal)) → Except Unit (List RG)
  | [] => .ok []
  | (_, fd) :: rest => do
      let l ← collectFac fd
      let l2 ← collect_rgs rest
      .ok (l ++ l2)

/-- Model of `Topology.get_resource_summary` (source lines 96 to 109),
restricted to the `ResourceGroup` list (the surrounding `ResourceSummary`
wrapper adds only two constant schema attributes).  Python `list.sort` is a
stable sort by the lowercased group name; stable sorting has a unique
result, modelled here by the stable `List.insertionSort`. -/
def Topology.get_resource_summary (t : Topology) : Except Unit (List RG) :=
  (collect_rgs t.data).map (List.insertionSort (fun a b => rgLE a b = true))

/-! ## Time-string normalization (`Topology._parsetime`, source lines 125 to 137)

The function first strips a redundant meridiem suffix from two malformed
patterns and then delegates to the external `dateparser` library.  Only the
stripping is code of this repository; it is modelled below over character
lists.  Python `\s` is modelled by `Char.isWhitespace`, which covers the
whitespace characters that occur in the data. -/

/-- Test that the list starts with one or more whitespace characters followed
(after the whole whitespace run) by the two given literal characters, the
regex fragment `\s+XY`.  Because the first literal is not whitespace, a
backtracking `\s+` matches exactly when the maximal run does. -/
def wsThen2 (x y : Char) (l : List Char) : Bool :=
  match l with
  | [] => false
  | c :: _ =>
      c.isWhitespace &&
        (match l.dropWhile Char.isWhitespace with
         | a :: b :: _ => a == x && b == y
         | _ => false)

/-- Anchored match of `(1[3-9]|2[0-3]):\d\d\s+PM`, the hour part of the
second regex of `_parsetime`. -/
def hourPM : List Char → Bool
  | '1' :: c2 :: ':' :: d1 :: d2 :: rest =>
      ('3' ≤ c2 && c2 ≤ '9') && d1.isDigit && d2.isDigit && wsThen2 'P' 'M' rest
  | '2' :: c2 :: ':' :: d1 :: d2 :: rest =>
      ('0' ≤ c2 && c2 ≤ '3') && d1.isDigit && d2.isDigit && wsThen2 'P' 'M' rest
  | _ => false

/-- Anchored match of `00:\d\d\s+AM`, the hour part of the first regex of
`_parsetime`. -/
def hourAM : List Char → Bool
  | '0' :: '0' :: ':' :: d1 :: d2 :: rest =>
      d1.isDigit && d2.isDigit && wsThen2 'A' 'M' rest
  | _ => false

/-- Unanchored search (Python `re.search`) for `\s+` followed by the given
anchored hour pattern: the pattern must match starting at some position of
the list.  As in `wsThen2`, the hour digit after the `\s+` is not whitespace,
so it suffices to try the maximal whitespace run at every start position. -/
def searchWsHour (hour : List Char → Bool) : List Char → Bool
  | [] => false
  | c :: rest =>
      (c.isWhitespace && hour ((c :: rest).dropWhile Char.isWhitespace)) || searchWsHour hour rest

/-- Python `s.replace(p, "")` for a three-character pattern `p`: remove every
non-overlapping occurrence, scanning left to right. -/
def removeSub3 (p1 p2 p3 : Char) : List Char → List Char
  | c1 :: c2 :: c3 :: rest =>
      if c1 == p1 && c2 == p2 && c3 == p3 then removeSub3 p1 p2 p3 rest
      else c1 :: removeSub3 p1 p2 p3 (c2 :: c3 :: rest)
  | l => l

/-- Model of the normalization half of `Topology._parsetime`: if the string
contains whitespace, `00:` and two digits followed by whitespace and `AM`,
remove every occurrence of `" AM"`; otherwise if it contains whitespace, a
24-hour hour from 13 to 23, minutes, whitespace and `PM`, remove every
occurrence of `" PM"`; otherwise leave the string unchanged.  The subsequent
parse of the resulting string is the external `dateparser` library. -/
def parsetime_strip (s : String) : String :=
  if searchWsHour hourAM s.toList then (removeSub3 ' ' 'A' 'M' s.toList).asString
  else if searchWsHour hourPM s.toList then (removeSub3 ' ' 'P' 'M' s.toList).asString
  else s

/-! ## Downtime expansion (`expand_downtime`, source lines 327 to 370)

The already-expanded resource-group record passed to `expand_downtime` is
represented by the fields the function reads: `GroupName`, `GroupID`, and the
list `rg_expanded["Resources"]["Resource"]` of expanded resources, of which
the function reads `Name`, `FQDN`, `ID` and `Services`.  (`ensure_list` from
`convertlib` is not under src/; modelled from the spec it ensures a value is
a list, and both values it is applied to are already lists here.)  An
expanded `Services` value is either the injected default placeholder string
(the resource had no `Services` sub-record) or the mapping
`{"Service": [...]}` of resolved services. -/

/-- An entry of the resolved service list of an expanded resource, the
fields `expand_downtime` reads plus the optional `Details`. -/
structure ExpService where
  ID : Nat
  Name : String
  Description : String
  Details : Option String
  deriving DecidableEq, Repr

/-- The `Services` value of an expanded resource. -/
inductive ServicesField where
  | placeholder (s : String)
  | expanded (l : List ExpService)
  deriving DecidableEq, Repr

/-- The fields of an expanded resource read by `expand_downtime`. -/
structure ResourceX where
  ID : Nat
  Name : String
  FQDN : String
  Services : ServicesField
  deriving DecidableEq, Repr

/-- The fields of an expanded resource group read by `expand_downtime`. -/
structure RGX where
  GroupName : String
  GroupID : Nat
  Resources : List ResourceX
  deriving DecidableEq, Repr

/-- A raw downtime record, with the fields `expand_downtime` reads.  The
time fields stay strings here; they are parsed only later, inside
`add_downtime`. -/
structure RawDowntime where
  ID : Nat
  ResourceName : String
  StartTime : String
  EndTime : String
  Class : String
  Severity : String
  Description : String
  Services : List String
  deriving DecidableEq, Repr

/-- The `ResourceGroup` sub-record of an expanded downtime. -/
structure DTGroup where
  GroupName : String
  GroupID : Nat
  deriving DecidableEq, Repr

/-- A service reference of an expanded downtime: `ID`, `Name`,
`Description` copied from a resolved service of the resource. -/
structure ExpServiceRef where
  ID : Nat
  Name : String
  Description : String
  deriving DecidableEq, Repr

/-- An expanded downtime record.  The field declaration order is the fixed
key order `OrderedDict.fromkeys` establishes in the source: ID, ResourceID,
ResourceGroup, ResourceName, ResourceFQDN, StartTime, EndTime, Class,
Severity, CreatedTime, UpdateTime, Services, Description. -/
structure NewDowntime where
  ID : Nat
  ResourceID : Nat
  ResourceGroup : DTGroup
  ResourceName : String
  ResourceFQDN : String
  StartTime : String
  EndTime : String
  Class : String
  Severity : String
  CreatedTime : String
  UpdateTime : String
  Services : List ExpServiceRef
  Description : String
  deriving DecidableEq, Repr

/-- The resource-matching loop of `expand_downtime`: first resource of the
group whose `Name` equals the downtime `ResourceName`. -/
def findResource : List ResourceX → String → Option ResourceX
  | [], _ => none
  | r :: rs, n => if r.Name == n then some r else findResource rs n

/-- The service-matching loop of `expand_downtime`: for each service name
listed in the downtime, in order, copy `ID`, `Name`, `Description` of the
first resolved service with that name, or emit the diagnostic line when
there is none. -/
def resolveServices (svcs : List ExpService) (resname : String) :
    List String → List ExpServiceRef × List String
  | [] => ([], [])
  | n :: ns =>
      let rest := resolveServices svcs resname ns
      match svcs.find? (fun s => s.Name == n) with
      | some s => (⟨s.ID, s.Name, s.Description⟩ :: rest.1, rest.2)
      | none => (rest.1, ("Service " ++ n ++ " does not exist in resource " ++ resname) :: rest.2)

/-- Assembly of the final expanded downtime record, with the values the
source fills into the fixed-order keys. -/
def assembleDowntime (downtime : RawDowntime) (rg : RGX) (r : ResourceX)
    (svcs : List ExpServiceRef) : NewDowntime :=
  ⟨downtime.ID, r.ID, ⟨rg.GroupName, rg.GroupID⟩, r.Name, r.FQDN,
   downtime.StartTime, downtime.EndTime, downtime.Class, downtime.Severity,
   "Not Available", "Not Available", svcs, downtime.Description⟩

/-- Model of `expand_downtime(downtime, rg_expanded)`.  The result carries
the expanded record (or `none`, the discard signal) together with the list
of diagnostic lines printed.  `Except.error` is Python raising: when the
matched resource has the placeholder string as its `Services` value, the
subscript `r["Services"]["Service"]` is a `TypeError`, which the driver
wraps in a `DowntimeError` and re-raises, aborting the run. -/
def expand_downtime (downtime : RawDowntime) (rg : RGX) :
    Except Unit (Option NewDowntime × List String) :=
  match findResource rg.Resources downtime.ResourceName with
  | none => .ok (none, ["Resource " ++ downtime.ResourceName ++ " does not exist"])
  | some r =>
      match r.Services with
      | ServicesField.placeholder _ => .error ()
      | ServicesField.expanded svcs =>
          let res := resolveServices svcs downtime.ResourceName downtime.Services
          match res.1 with
          | [] => .ok (none, res.2 ++ ["No existing services listed for downtime; skipping downtime"])
          | l => .ok (some (assembleDowntime downtime rg r l), res.2)

/-! ## Downtime bucketing (`Topology.add_downtime`, source lines 139 to 152)

Instants are modelled as integers with the order of `datetime` values; the
conversion of the `StartTime`/`EndTime` strings to instants (`_parsetime`
delegating to the external `dateparser`) is abstracted as an explicit
`parsetime` parameter, and `current_time` is the evaluation instant freshly
sampled by the call. -/

/-- The three downtime buckets of the store. -/
structure DTBuckets where
  past_downtimes : List NewDowntime
  current_downtimes : List NewDowntime
  future_downtimes : List NewDowntime
  deriving DecidableEq, Repr

/-- Model of `Topology.add_downtime(downtime)`: `None` is ignored; otherwise
the record is appended to the past bucket when its end instant is before the
evaluation instant, else to the future bucket when its start instant is
after the evaluation instant, else to the current bucket. -/
def Topology.add_downtime (parsetime : String → Int) (st : DTBuckets)
    (downtime : Option NewDowntime) (current_time : Int) : DTBuckets :=
  match downtime with
  | none => st
  | some d =>
      let start_time := parsetime d.StartTime
      let end_time := parsetime d.EndTime
      if end_time < current_time then
        ⟨st.past_downtimes ++ [d], st.current_downtimes, st.future_downtimes⟩
      else if start_time > current_time then
        ⟨st.past_downtimes, st.current_downtimes, st.future_downtimes ++ [d]⟩
      else
        ⟨st.past_downtimes, st.current_downtimes ++ [d], st.future_downtimes⟩

/-- The resolved subset of the service names listed in a downtime: those
names present among the resolved services of the resource, each replaced by
the reference the source builds.  This is the specification notion the
service-matching loop is checked against. -/
def resolvedSubset (svcs : List ExpService) (names : List String) : List ExpServiceRef :=
  names.filterMap (fun n =>
    (svcs.find? (fun s => s.Name == n)).map (fun s => ⟨s.ID, s.Name, s.Description⟩))

/-- The diagnostic lines for the listed service names absent from the
resolved services, in list order. -/
def unresolvedDiags (svcs : List ExpService) (resname : String) (names : List String) :
    List String :=
  (names.filter (fun n => (svcs.find? (fun s => s.Name == n)).isNone)).map
    (fun n => "Service " ++ n ++ " does not exist in resource " ++ resname)

/-! ## Resource expansion (`expand_resource`, source lines 231 to 271)

A raw resource record is a Python dict with arbitrary fields.  It is
modelled as an ordered association list over a sum type `RVal` of the value
shapes the expansion code distinguishes; a value of unexpected shape makes
the corresponding Python operation raise, modelled as `Except.error`. -/

/-- A scalar value inside a `WLCGInformation` sub-record. -/
inductive WVal where
  | null
  | str (s : String)
  | num (n : Int)
  | boolean (b : Bool)
  deriving DecidableEq, Repr

/-- A raw `Services` sub-record entry (the per-service data of the mapping
from service name to sub-record): `Description` and the optional `Details`.
The sub-record shape follows the spec for `expand_attr_list` from
`convertlib`, which is not under src/. -/
structure RawSvc where
  Description : String
  Details : Option String
  deriving DecidableEq, Repr

/-- A value of a raw or expanded resource field. -/
inductive RVal where
  | null
  | str (s : String)
  | num (n : Int)
  | boolean (b : Bool)
  | rawServices (l : List (String × RawSvc))
  | expServices (l : List ExpService)
  | rawVOOwn (l : List (String × Nat))
  | expVOOwn (own : List (String × Nat)) (charturl : String)
  | wrapped (tag : String) (v : RVal)
  | rawContacts (l : List (String × List (Nat × String)))
  | expContacts (l : List (String × List (Nat × String)))
  | wlcgRaw (d : List (String × WVal))
  | wlcgExp (d : List (String × WVal))
  deriving DecidableEq, Repr

/-- Modelled from the spec: `is_null` from `convertlib` (not under src/).
Section 4.1 of the spec guards expansion on a field being present and
non-null, so a field is null when its key is absent or its value is the
null value. -/
def is_null (d : List (String × RVal)) (k : String) : Bool :=
  match dlookup d k with
  | none => true
  | some RVal.null => true
  | some _ => false

/-- Model of `expand_services(services, service_name_to_id)` (source lines
155 to 164): each service of the sub-record is resolved to its id through
the lookup table (a missing name is a `KeyError`, fatal to the enclosing
expansion) and reassembled with field order ID, Name, Description, Details.
The field reordering of `expand_attr_list` from `convertlib` (not under
src/) is modelled from the spec by the `ExpService` record. -/
def expand_services : List (String × RawSvc) → List (String × Nat) → Except Unit (List ExpService)
  | [], _ => .ok []
  | (n, sd) :: rest, tbl =>
      match dlookup tbl n with
      | none => .error ()
      | some i => (expand_services rest tbl).map (fun l => ⟨i, n, sd.Description, sd.Details⟩ :: l)

/-- The `defaults` table of `expand_wlcginformation`. -/
def wlcg_defaults : List (String × WVal) :=
  [("AccountingName", WVal.null), ("InteropBDII", WVal.boolean false),
   ("LDAPURL", WVal.null), ("TapeCapacity", WVal.num 0)]

/-- The fixed allow-list of `expand_wlcginformation`. -/
def wlcg_elems : List String :=
  ["InteropBDII", "LDAPURL", "InteropMonitoring", "InteropAccounting", "AccountingName",
   "KSI2KMin", "KSI2KMax", "StorageCapacityMin", "StorageCapacityMax", "HEPSPEC",
   "APELNormalFactor", "TapeCapacity"]

/-- Model of `expand_wlcginformation(wlcg)` (source lines 213 to 228): keep
the allow-listed fields in allow-list order, taking the value from the
input when present and from the defaults table otherwise; allow-listed
fields absent from both are dropped, as is everything outside the list. -/
def expand_wlcginformation (w : List (String × WVal)) : List (String × WVal) :=
  wlcg_elems.filterMap (fun e =>
    match dlookup w e with
    | some v => some (e, v)
    | none =>
        match dlookup wlcg_defaults e with
        | some dv => some (e, dv)
        | none => none)

/-- The `defaults` table of `expand_resource`, in its dict order. -/
def res_defaults : List (String × RVal) :=
  [("ContactLists", RVal.null), ("FQDNAliases", RVal.null),
   ("Services", RVal.str "no applicable service exists"),
   ("VOOwnership", RVal.str "(Information not available)"),
   ("WLCGInformation", RVal.str "(Information not available)")]

/-- The fixed output field order of `expand_resource`. -/
def res_field_order : List String :=
  ["ID", "Name", "Active", "Disable", "Services", "Description", "FQDN",
   "FQDNAliases", "VOOwnership", "WLCGInformation", "ContactLists"]

/-- Step 1 of `expand_resource`: when `Services` is present and non-null,
replace it by its expansion (its value must be a raw sub-record, and every
service name must resolve); otherwise remove the key. -/
def exp_step_services (tbl : List (String × Nat)) (res : List (String × RVal)) :
    Except Unit (List (String × RVal)) :=
  if !(is_null res "Services") then
    match dlookup res "Services" with
    | some (RVal.rawServices l) =>
        (expand_services l tbl).map (fun el => dinsert res "Services" (RVal.expServices el))
    | _ => .error ()
  else pure (dpop res "Services")

/-- Step 2 of `expand_resource`: when `VOOwnership` is present, replace it
by its expansion (`Ownership` list and `ChartURL`); a value that is not an
ownership mapping makes Python raise inside `expand_voownership`. -/
def exp_step_voown (res : List (String × RVal)) : Except Unit (List (String × RVal)) :=
  if dmem res "VOOwnership" then
    match dlookup res "VOOwnership" with
    | some (RVal.rawVOOwn l) =>
        pure (dinsert res "VOOwnership"
          (RVal.expVOOwn (expand_voownership l).1 (expand_voownership l).2))
    | _ => .error ()
  else pure res

/-- Step 3 of `expand_resource`: when `FQDNAliases` is present, wrap its
value (whatever it is) as the named list container `{"FQDNAlias": value}`. -/
def exp_step_aliases (res : List (String × RVal)) : List (String × RVal) :=
  if dmem res "FQDNAliases" then
    match dlookup res "FQDNAliases" with
    | some v => dinsert res "FQDNAliases" (RVal.wrapped "FQDNAlias" v)
    | none => res
  else res

/-- Step 4 of `expand_resource`: when `ContactLists` is present and
non-null, replace it by its expansion.  `expand_contactlists` (source lines
204 to 210) regroups the entries by contact type without changing their
payload; the regrouped shape is recorded by the `expContacts` constructor.
A value that is not a contact mapping makes Python raise inside
`expand_contactlists`. -/
def exp_step_contacts (res : List (String × RVal)) : Except Unit (List (String × RVal)) :=
  if !(is_null res "ContactLists") then
    match dlookup res "ContactLists" with
    | some (RVal.rawContacts l) => pure (dinsert res "ContactLists" (RVal.expContacts l))
    | _ => .error ()
  else pure res

/-- Step 5 of `expand_resource`: insert the resource name,
`res["Name"] = name`. -/
def exp_step_name (name : String) (res : List (String × RVal)) : List (String × RVal) :=
  dinsert res "Name" (RVal.str name)

/-- Step 6 of `expand_resource`: when `WLCGInformation` is present and its
value is a nested record, replace it by its expansion; any other value is
left as it is (`isinstance(..., dict)` is false). -/
def exp_step_wlcg (res : List (String × RVal)) : List (String × RVal) :=
  if dmem res "WLCGInformation" then
    match dlookup res "WLCGInformation" with
    | some (RVal.wlcgRaw w) => dinsert res "WLCGInformation" (RVal.wlcgExp (expand_wlcginformation w))
    | _ => res
  else res

/-- Step 7 of `expand_resource`: reassemble the record in the fixed field
order, taking each field from the transformed record when present, else
from the defaults table, else omitting it. -/
def exp_reassemble (res : List (String × RVal)) : List (String × RVal) :=
  res_field_order.filterMap (fun e =>
    match dlookup res e with
    | some v => some (e, v)
    | none =>
        match dlookup res_defaults e with
        | some dv => some (e, dv)
        | none => none)

/-- Model of `expand_resource(name, res, service_name_to_id)`: the seven
steps of the source in order. -/
def expand_resource (name : String) (res : List (String × RVal))
    (service_name_to_id : List (String × Nat)) : Except Unit (List (String × RVal)) := do
  let r1 ← exp_step_services service_name_to_id res
  let r2 ← exp_step_voown r1
  let r3 := exp_step_aliases r2
  let r4 ← exp_step_contacts r3
  let r5 := exp_step_name name r4
  let r6 := exp_step_wlcg r5
  pure (exp_reassemble r6)

/-! ## Dictionary lemmas -/

theorem dlookup_eq_none_of_not_mem {α : Type} {l : List (String × α)} {k : String}
    (h : ∀ p ∈ l, p.1 ≠ k) : dlookup l k = none := by
  induction l with
  | nil => rfl
  | cons p rest ih =>
      have hp : p.1 ≠ k := h p (List.mem_cons_self p rest)
      simp only [dlookup, beq_iff_eq, if_neg hp]
      exact ih (fun q hq => h q (List.mem_cons_of_mem p hq))

theorem dinsert_of_not_mem {α : Type} {l : List (String × α)} {k : String} (v : α)
    (h : ∀ p ∈ l, p.1 ≠ k) : dinsert l k v = l ++ [(k, v)] := by
  induction l with
  | nil => rfl
  | cons p rest ih =>
      have hp : p.1 ≠ k := h p (List.mem_cons_self p rest)
      simp only [dinsert, beq_iff_eq, if_neg hp, List.cons_append, List.cons.injEq, true_and]
      exact ih (fun q hq => h q (List.mem_cons_of_mem p hq))

theorem dlookup_dinsert {α : Type} (l : List (String × α)) (k : String) (v : α) (k2 : String) :
    dlookup (dinsert l k v) k2 = if k = k2 then some v else dlookup l k2 := by
  induction l with
  | nil =>
      simp only [dinsert, dlookup, beq_iff_eq]
  | cons p rest ih =>
      by_cases hp : p.1 = k
      · simp only [dinsert, beq_iff_eq, if_pos hp, dlookup]
        by_cases h2 : k = k2
        · simp [h2]
        · simp [h2, hp, dlookup]
      · simp only [dinsert, beq_iff_eq, if_neg hp, dlookup, ih]
        by_cases h2 : k = k2
        · have : ¬ p.1 = k2 := by rw [← h2]; exact hp
          simp [h2, this]
        · simp [h2]

theorem dlookup_dpop {α : Type} (l : List (String × α)) (k k2 : String) :
    dlookup (dpop l k) k2 = if k = k2 then none else dlookup l k2 := by
  induction l with
  | nil => simp [dpop, dlookup]
  | cons p rest ih =>
      by_cases hp : p.1 = k
      · simp only [dpop, List.filter] at ih ⊢
        simp only [hp, beq_self_eq_true, Bool.not_true]
        by_cases h2 : k = k2
        · simpa [h2] using ih
        · have : ¬ p.1 = k2 := by rw [hp]; exact h2
          simp only [ih, if_neg h2, dlookup, beq_iff_eq, if_neg this]
      · simp only [dpop, List.filter] at ih ⊢
        have hb : (p.1 == k) = false := beq_eq_false_iff_ne.mpr hp
        simp only [hb, Bool.not_false, dlookup, ih]
        by_cases h2 : p.1 = k2
        · have : ¬ k = k2 := by rw [← h2]; exact fun h => hp h.symm
          simp [h2, this]
        · simp [h2]

theorem mem_of_dlookup_eq_some {α : Type} {l : List (String × α)} {k : String} {v : α}
    (h : dlookup l k = some v) : (k, v) ∈ l := by
  induction l with
  | nil => simp [dlookup] at h
  | cons p rest ih =>
      by_cases hp : p.1 = k
      · simp only [dlookup, beq_iff_eq, if_pos hp, Option.some.injEq] at h
        have hpk : (k, v) = p := by
          cases p
          simp_all
        rw [hpk]
        exact List.mem_cons_self p rest
      · simp only [dlookup, beq_iff_eq, if_neg hp] at h
        exact List.mem_cons_of_mem p (ih h)

theorem dlookup_eq_some_of_mem_nodup {α : Type} {l : List (String × α)} {k : String} {v : α}
    (hnd : (l.map Prod.fst).Nodup) (h : (k, v) ∈ l) : dlookup l k = some v := by
  induction l with
  | nil => simp at h
  | cons p rest ih =>
      simp only [List.map_cons, List.nodup_cons] at hnd
      rcases List.mem_cons.mp h with h1 | h1
      · rw [← h1]
        simp [dlookup]
      · have hp : p.1 ≠ k := by
          intro hk
          exact hnd.1 (by
            rw [hk]
            exact List.mem_map.mpr ⟨(k, v), h1, rfl⟩)
        simp only [dlookup, beq_iff_eq, if_neg hp]
        exact ih hnd.2 h1

theorem dlookup_eq_of_perm {α : Type} {l₁ l₂ : List (String × α)}
    (hnd : (l₁.map Prod.fst).Nodup) (hperm : l₁.Perm l₂) (k : String) :
    dlookup l₁ k = dlookup l₂ k := by
  cases h : dlookup l₁ k with
  | some v =>
      exact (dlookup_eq_some_of_mem_nodup ((hperm.map Prod.fst).nodup_iff.mp hnd)
        (hperm.mem_iff.mp (mem_of_dlookup_eq_some h))).symm
  | none =>
      have h1 : ∀ p ∈ l₁, p.1 ≠ k := by
        intro p hp hk
        have hm : (k, p.2) ∈ l₁ := by
          have hpk : (k, p.2) = p := by
            cases p
            simp_all
          rw [hpk]
          exact hp
        rw [dlookup_eq_some_of_mem_nodup hnd hm] at h
        exact Option.noConfusion h
      exact (dlookup_eq_none_of_not_mem (fun p hp => h1 p (hperm.mem_iff.mpr hp))).symm

theorem sumPercents_append (l : List (String × Nat)) (p : String × Nat) :
    sumPercents (l ++ [p]) = sumPercents l + p.2 := by
  simp [sumPercents]

/-! ## Claims about VO ownership (C1, C5) -/

set_option maxRecDepth 100000 in
/-- Claim C1, counterexample: for the input with A at 60 and B at 30 the
query string of the chart URL does NOT contain `chd=t:60,30,10`.  The source
passes the original mapping, without the synthetic `(Other)` entry, to
`get_charturl`, and `urlencode` percent-encodes the colon and the commas. -/
theorem c1_counterexample :
    ¬ ("chd=t:60,30,10".toList <:+: (get_charturl [("A", 60), ("B", 30)]).toList) := by
  decide

set_option maxRecDepth 100000 in
/-- Claim C1, amended: for the VO-ownership input with A at 60 and B at 30,
`expand_voownership` returns an `Ownership` list containing A at 60, B at 30
and `(Other)` at 10, summing to 100; the `ChartURL` string however encodes
only the two explicit input entries, percent-encoded: its query string
contains `chd=t%3A60%2C30` (the URL encoding of `chd=t:60,30`), not
`chd=t:60,30,10`. -/
theorem c1_theorem :
    (expand_voownership [("A", 60), ("B", 30)]).1 = [("A", 60), ("B", 30), ("(Other)", 10)] ∧
    sumPercents (expand_voownership [("A", 60), ("B", 30)]).1 = 100 ∧
    (expand_voownership [("A", 60), ("B", 30)]).2 =
      "http://chart.apis.google.com/chart?chco=00cc00&cht=p3&chd=t%3A60%2C30&chs=280x65&chl=60%28A%25%29%7C30%28B%25%29" ∧
    ("chd=t%3A60%2C30".toList <:+: (expand_voownership [("A", 60), ("B", 30)]).2.toList) := by
  refine ⟨rfl, rfl, rfl, ?_⟩
  decide

/-- Claim C5, counterexample: an input that explicitly contains the key
`(Other)` breaks the normalization.  For the mapping with `(Other)` at 20
and A at 30 the explicit percentages sum to 50, yet the assignment
`voo["(Other)"] = 100 - 50` overwrites the existing entry, so the expanded
`Ownership` percentages sum to 80, not 100. -/
theorem c5_counterexample :
    sumPercents [("(Other)", 20), ("A", 30)] = 50 ∧ (50 : Nat) ≤ 100 ∧
    sumPercents (expand_voownership [("(Other)", 20), ("A", 30)]).1 = 80 ∧
    sumPercents (expand_voownership [("(Other)", 20), ("A", 30)]).1 ≠ 100 := by
  refine ⟨rfl, by decide, rfl, by decide⟩

/-- Claim C5, amended: for every VO-ownership input whose explicit
percentages sum to P with P at most 100 AND which does not itself use the
reserved name `(Other)`, the expanded `Ownership` percentages sum to
exactly 100, and the list contains the synthetic `(Other)` entry with
percentage 100 - P exactly when P is below 100. -/
theorem c5_theorem (l : List (String × Nat)) (hP : sumPercents l ≤ 100)
    (hO : ∀ p ∈ l, p.1 ≠ "(Other)") :
    sumPercents (expand_voownership l).1 = 100 ∧
    ((("(Other)", 100 - sumPercents l) ∈ (expand_voownership l).1) ↔ sumPercents l < 100) := by
  simp only [expand_voownership]
  by_cases h : sumPercents l < 100
  · rw [if_pos h, dinsert_of_not_mem _ hO]
    constructor
    · rw [sumPercents_append]
      omega
    · constructor
      · intro _
        exact h
      · intro _
        exact List.mem_append_right l (List.mem_singleton.mpr rfl)
  · rw [if_neg h]
    have h100 : sumPercents l = 100 := by omega
    refine ⟨h100, ?_, fun hlt => absurd hlt h⟩
    intro hmem
    exact absurd rfl (hO _ hmem)

/-- Claim C5, witness: the amended theorem applied to the concrete input
with A at 60 and B at 30. -/
theorem c5_witness :
    sumPercents (expand_voownership [("A", 60), ("B", 30)]).1 = 100 ∧
    ((("(Other)", 100 - sumPercents [("A", 60), ("B", 30)]) ∈
        (expand_voownership [("A", 60), ("B", 30)]).1) ↔
      sumPercents [("A", 60), ("B", 30)] < 100) :=
  c5_theorem [("A", 60), ("B", 30)] (by decide) (by decide)

theorem dinsert_dinsert {α : Type} (d : List (String × α)) (k : String) (v w : α) :
    dinsert (dinsert d k v) k w = dinsert d k w := by
  induction d with
  | nil => simp [dinsert]
  | cons p rest ih =>
      by_cases hp : p.1 = k
      · simp [dinsert, hp]
      · simp [dinsert, hp, ih]

theorem dlookup_of_dmem_false {α : Type} {d : List (String × α)} {k : String}
    (h : dmem d k = false) : dlookup d k = none := by
  simp only [dmem] at h
  cases hd : dlookup d k with
  | none => rfl
  | some v => rw [hd] at h; simp at h

theorem dmem_of_dlookup_some {α : Type} {d : List (String × α)} {k : String} {v : α}
    (h : dlookup d k = some v) : dmem d k = true := by
  simp [dmem, h]

/-! ## Claim about resource-group insertion (C2) -/

/-- Claim C2, counterexample: inserting two different records under the same
facility, site and group key leaves the store holding the FIRST record, not
the second.  Starting from the empty store, the first `add_rg` stores the
record with GroupID 1; the second `add_rg` with a record carrying GroupID 2
returns the store unchanged, and the lookup still yields GroupID 1. -/
theorem c2_counterexample :
    (Topology.mk []).add_rg "F" "S" "G" ⟨"G", 1⟩ =
      some ⟨[("F", [("S", FVal.site [("G", SVal.grp ⟨"G", 1⟩)])])]⟩ ∧
    (Topology.mk [("F", [("S", FVal.site [("G", SVal.grp ⟨"G", 1⟩)])])]).add_rg
        "F" "S" "G" ⟨"G", 2⟩ =
      some ⟨[("F", [("S", FVal.site [("G", SVal.grp ⟨"G", 1⟩)])])]⟩ ∧
    (Topology.mk [("F", [("S", FVal.site [("G", SVal.grp ⟨"G", 1⟩)])])]).rg_lookup "F" "S" "G" =
      some ⟨"G", 1⟩ ∧
    (⟨"G", 1⟩ : RG) ≠ ⟨"G", 2⟩ := by
  refine ⟨rfl, rfl, rfl, by decide⟩

/-- Claim C2, amended: insertion has an overwrite GUARD, so the FIRST write
for a given key wins.  For every store and key at which no group record is
yet present, a successful `add_rg` stores its record, and a second `add_rg`
with any other record under the same key returns the store unchanged (in
particular the first record is still the one held). -/
theorem c2_theorem (t : Topology) (facility site rg : String) (r1 r2 : RG) (t1 : Topology)
    (hfresh : t.rg_key_mem facility site rg = false)
    (hadd : t.add_rg facility site rg r1 = some t1) :
    t1.rg_lookup facility site rg = some r1 ∧ t1.add_rg facility site rg r2 = some t1 := by
  simp only [Topology.add_rg] at hadd
  cases hfd : dlookup (if dmem t.data facility then t.data else dinsert t.data facility [])
      facility with
  | none => rw [hfd] at hadd; exact absurd hadd (by simp)
  | some fd =>
  rw [hfd] at hadd
  simp only at hadd
  cases hfs : dlookup (if dmem fd site then fd else dinsert fd site (FVal.site [])) site with
  | none => rw [hfs] at hadd; exact absurd hadd (by simp)
  | some v =>
  rw [hfs] at hadd
  cases v with
  | fid n => exact absurd hadd (by simp)
  | site sd =>
  simp only at hadd
  -- the group key is absent from the site dict that `add_rg` reaches
  have hmem : dmem sd rg = false := by
    by_cases hf : dmem t.data facility = true
    · rw [if_pos hf] at hfd
      by_cases hs : dmem fd site = true
      · rw [if_pos hs] at hfs
        simp only [Topology.rg_key_mem, hfd, hfs] at hfresh
        exact hfresh
      · rw [if_neg hs] at hfs
        rw [dlookup_dinsert, if_pos rfl] at hfs
        cases hfs
        rfl
    · rw [if_neg hf] at hfd
      rw [dlookup_dinsert, if_pos rfl] at hfd
      cases hfd
      have hms : dmem ([] : List (String × FVal)) site = false := rfl
      rw [hms] at hfs
      simp only [Bool.false_eq_true, if_false, dlookup_dinsert, if_pos rfl] at hfs
      cases hfs
      rfl
  rw [hmem] at hadd
  simp only [Bool.false_eq_true, if_false, Option.some.injEq] at hadd
  subst hadd
  have hst : dlookup (dinsert sd rg (SVal.grp r1)) rg = some (SVal.grp r1) := by
    rw [dlookup_dinsert, if_pos rfl]
  constructor
  · simp [Topology.rg_lookup, dlookup_dinsert, hst]
  · simp [Topology.add_rg, dmem, dlookup_dinsert, hst, dinsert_dinsert]

/-- Claim C2, witness: the amended theorem applied to the empty store with
two concrete distinct records. -/
theorem c2_witness :
    (Topology.mk [("F", [("S", FVal.site [("G", SVal.grp ⟨"G", 7⟩)])])]).rg_lookup "F" "S" "G" =
      some ⟨"G", 7⟩ ∧
    (Topology.mk [("F", [("S", FVal.site [("G", SVal.grp ⟨"G", 7⟩)])])]).add_rg
        "F" "S" "G" ⟨"G", 8⟩ =
      some ⟨[("F", [("S", FVal.site [("G", SVal.grp ⟨"G", 7⟩)])])]⟩ :=
  c2_theorem ⟨[]⟩ "F" "S" "G" ⟨"G", 7⟩ ⟨"G", 8⟩ _ (by rfl) (by rfl)

/-! ## Claim about time normalization (C3) -/

set_option maxRecDepth 100000 in
/-- Claim C3: the code evaluated at the failing input.  Both regexes of
`_parsetime` demand at least one whitespace character BEFORE the hour, so
the bare string `17:00 PM` (the example given by the comment in the source
and by the spec scenario) is not matched and its `PM` suffix is NOT
stripped; the same time preceded by whitespace is matched and stripped. -/
theorem c3_theorem :
    parsetime_strip "17:00 PM" = "17:00 PM" ∧
    searchWsHour hourPM "17:00 PM".toList = false ∧
    searchWsHour hourPM " 17:00 PM".toList = true ∧
    parsetime_strip " 17:00 PM" = " 17:00" ∧
    parsetime_strip "Sep 21, 2017 17:00 PM" = "Sep 21, 2017 17:00" ∧
    parsetime_strip "00:00 AM" = "00:00 AM" := by
  decide

/-! ## Claim about downtime bucketing (C4) -/

/-- Claim C4: `add_downtime` puts a downtime into exactly one of the three
buckets: the past bucket exactly when its end instant is before the
evaluation instant, the future bucket exactly when it is not past and its
start instant is after the evaluation instant, and the current bucket
otherwise; in particular the boundary cases where the end or the start
equals the evaluation instant land in the current bucket. -/
theorem c4_theorem (parsetime : String → Int) (st : DTBuckets) (d : NewDowntime) (T : Int) :
    (((Topology.add_downtime parsetime st (some d) T).past_downtimes =
          st.past_downtimes ++ [d] ∧
        (Topology.add_downtime parsetime st (some d) T).current_downtimes =
          st.current_downtimes ∧
        (Topology.add_downtime parsetime st (some d) T).future_downtimes =
          st.future_downtimes) ↔
      parsetime d.EndTime < T) ∧
    (((Topology.add_downtime parsetime st (some d) T).future_downtimes =
          st.future_downtimes ++ [d] ∧
        (Topology.add_downtime parsetime st (some d) T).past_downtimes =
          st.past_downtimes ∧
        (Topology.add_downtime parsetime st (some d) T).current_downtimes =
          st.current_downtimes) ↔
      (¬ parsetime d.EndTime < T ∧ T < parsetime d.StartTime)) ∧
    (((Topology.add_downtime parsetime st (some d) T).current_downtimes =
          st.current_downtimes ++ [d] ∧
        (Topology.add_downtime parsetime st (some d) T).past_downtimes =
          st.past_downtimes ∧
        (Topology.add_downtime parsetime st (some d) T).future_downtimes =
          st.future_downtimes) ↔
      (¬ parsetime d.EndTime < T ∧ ¬ T < parsetime d.StartTime)) := by
  simp only [Topology.add_downtime, gt_iff_lt]
  by_cases he : parsetime d.EndTime < T
  · simp [he]
  · by_cases hs : T < parsetime d.StartTime
    · simp [he, hs]
    · simp [he, hs]

/-- Claim C4, witness: the theorem applied to a concrete downtime whose end
instant lies before the evaluation instant, landing in the past bucket. -/
theorem c4_witness :
    (Topology.add_downtime (fun _ => 0) ⟨[], [], []⟩
        (some ⟨1, 2, ⟨"g", 3⟩, "r", "f", "st", "et", "c", "s", "ct", "ut", [], "d"⟩)
        1).past_downtimes =
      [] ++ [⟨1, 2, ⟨"g", 3⟩, "r", "f", "st", "et", "c", "s", "ct", "ut", [], "d"⟩] ∧
    (Topology.add_downtime (fun _ => 0) ⟨[], [], []⟩
        (some ⟨1, 2, ⟨"g", 3⟩, "r", "f", "st", "et", "c", "s", "ct", "ut", [], "d"⟩)
        1).current_downtimes = [] ∧
    (Topology.add_downtime (fun _ => 0) ⟨[], [], []⟩
        (some ⟨1, 2, ⟨"g", 3⟩, "r", "f", "st", "et", "c", "s", "ct", "ut", [], "d"⟩)
        1).future_downtimes = [] :=
  (c4_theorem (fun _ => 0) ⟨[], [], []⟩
      ⟨1, 2, ⟨"g", 3⟩, "r", "f", "st", "et", "c", "s", "ct", "ut", [], "d"⟩ 1).1.mpr
    (by decide)

/-! ## Claims about downtime expansion (C7, C8, C10) -/

theorem findResource_eq_none {l : List ResourceX} {n : String}
    (h : ∀ r ∈ l, r.Name ≠ n) : findResource l n = none := by
  induction l with
  | nil => rfl
  | cons r rest ih =>
      have hr : r.Name ≠ n := h r (List.mem_cons_self r rest)
      simp only [findResource, beq_iff_eq, if_neg hr]
      exact ih (fun q hq => h q (List.mem_cons_of_mem r hq))

theorem resolveServices_eq (svcs : List ExpService) (resname : String) (names : List String) :
    resolveServices svcs resname names =
      (resolvedSubset svcs names, unresolvedDiags svcs resname names) := by
  induction names with
  | nil => rfl
  | cons n ns ih =>
      cases hf : svcs.find? (fun s => s.Name == n) with
      | none =>
          simp [resolveServices, resolvedSubset, unresolvedDiags, hf, ih,
            resolvedSubset, unresolvedDiags]
      | some s =>
          simp [resolveServices, resolvedSubset, unresolvedDiags, hf, ih,
            resolvedSubset, unresolvedDiags]

/-- Claim C7: a downtime whose `ResourceName` matches no resource of its
group is discarded with the diagnostic line, and feeding the discard signal
to `add_downtime` leaves all three buckets unchanged. -/
theorem c7_theorem (downtime : RawDowntime) (rg : RGX)
    (h : ∀ r ∈ rg.Resources, r.Name ≠ downtime.ResourceName) :
    expand_downtime downtime rg =
      Except.ok (none, ["Resource " ++ downtime.ResourceName ++ " does not exist"]) ∧
    ∀ (parsetime : String → Int) (st : DTBuckets) (T : Int),
      Topology.add_downtime parsetime st none T = st := by
  constructor
  · simp [expand_downtime, findResource_eq_none h]
  · intro parsetime st T
    rfl

/-- Claim C7, witness: the theorem applied to a group with one resource
named R1 and a downtime referencing R2. -/
theorem c7_witness :
    expand_downtime ⟨9, "R2", "st", "et", "c", "v", "d", ["S1"]⟩
        ⟨"g", 1, [⟨5, "R1", "r1.example", ServicesField.expanded []⟩]⟩ =
      Except.ok (none, ["Resource R2 does not exist"]) ∧
    Topology.add_downtime (fun _ => 0) ⟨[], [], []⟩ none 0 = ⟨[], [], []⟩ := by
  have h := c7_theorem ⟨9, "R2", "st", "et", "c", "v", "d", ["S1"]⟩
    ⟨"g", 1, [⟨5, "R1", "r1.example", ServicesField.expanded []⟩]⟩ (by decide)
  exact ⟨h.1, h.2 (fun _ => 0) ⟨[], [], []⟩ 0⟩

/-- Claim C8: for a downtime whose matched resource has resolved services,
the expansion keeps exactly the resolved subset of the listed service names
(each absent name individually producing one diagnostic line and nothing
else), and discards the whole downtime with a further diagnostic when the
resolved subset is empty. -/
theorem c8_theorem (downtime : RawDowntime) (rg : RGX) (r : ResourceX) (svcs : List ExpService)
    (hr : findResource rg.Resources downtime.ResourceName = some r)
    (hs : r.Services = ServicesField.expanded svcs) :
    expand_downtime downtime rg =
      (if resolvedSubset svcs downtime.Services = []
       then Except.ok (none, unresolvedDiags svcs downtime.ResourceName downtime.Services ++
              ["No existing services listed for downtime; skipping downtime"])
       else Except.ok
              (some (assembleDowntime downtime rg r (resolvedSubset svcs downtime.Services)),
               unresolvedDiags svcs downtime.ResourceName downtime.Services)) := by
  simp only [expand_downtime, hr, hs, resolveServices_eq]
  cases hres : resolvedSubset svcs downtime.Services with
  | nil => simp
  | cons x xs => simp

/-- Claim C8, witness: the theorem applied to a downtime listing S1 and S2
on a resource that resolves only S1: the expanded downtime keeps exactly S1
and one diagnostic line reports S2. -/
theorem c8_witness :
    expand_downtime ⟨9, "R", "st", "et", "c", "v", "d", ["S1", "S2"]⟩
        ⟨"g", 1, [⟨5, "R", "r.example", ServicesField.expanded [⟨3, "S1", "desc1", none⟩]⟩]⟩ =
      Except.ok
        (some ⟨9, 5, ⟨"g", 1⟩, "R", "r.example", "st", "et", "c", "v",
          "Not Available", "Not Available", [⟨3, "S1", "desc1"⟩], "d"⟩,
         ["Service S2 does not exist in resource R"]) := by
  rw [c8_theorem ⟨9, "R", "st", "et", "c", "v", "d", ["S1", "S2"]⟩
      ⟨"g", 1, [⟨5, "R", "r.example", ServicesField.expanded [⟨3, "S1", "desc1", none⟩]⟩]⟩
      ⟨5, "R", "r.example", ServicesField.expanded [⟨3, "S1", "desc1", none⟩]⟩
      [⟨3, "S1", "desc1", none⟩] rfl rfl]
  rfl

/-- Claim C10: a downtime whose matched resource carries the injected
placeholder string as its `Services` value (the resource was expanded
without a `Services` sub-record) makes `expand_downtime` raise instead of
discarding the downtime: the subscript `r["Services"]["Service"]` on a
string is a `TypeError`, which aborts the run. -/
theorem c10_theorem (downtime : RawDowntime) (rg : RGX) (r : ResourceX)
    (hr : findResource rg.Resources downtime.ResourceName = some r)
    (hs : r.Services = ServicesField.placeholder "no applicable service exists") :
    expand_downtime downtime rg = Except.error () := by
  simp [expand_downtime, hr, hs]

/-- Claim C10, witness: the theorem applied to a concrete downtime on a
resource whose `Services` value is the placeholder string. -/
theorem c10_witness :
    expand_downtime ⟨9, "R", "st", "et", "c", "v", "d", ["S1"]⟩
        ⟨"g", 1, [⟨5, "R", "r.example",
          ServicesField.placeholder "no applicable service exists"⟩]⟩ =
      Except.error () :=
  c10_theorem ⟨9, "R", "st", "et", "c", "v", "d", ["S1"]⟩
    ⟨"g", 1, [⟨5, "R", "r.example", ServicesField.placeholder "no applicable service exists"⟩]⟩
    ⟨5, "R", "r.example", ServicesField.placeholder "no applicable service exists"⟩ rfl rfl

/-! ## Claims about the resource summary (C6) -/

theorem lexLE_of_lt {x y : Char} (h : x < y) (xs ys : List Char) :
    lexLE (x :: xs) (y :: ys) = true := by
  simp [lexLE, h]

theorem lexLE_cons_eq {xs ys : List Char} (x : Char) (h : lexLE xs ys = true) :
    lexLE (x :: xs) (x :: ys) = true := by
  simp [lexLE, lt_irrefl, h]

theorem lexLE_head_cases {x y : Char} {xs ys : List Char}
    (h : lexLE (x :: xs) (y :: ys) = true) : x < y ∨ (x = y ∧ lexLE xs ys = true) := by
  by_cases h1 : x < y
  · exact Or.inl h1
  · by_cases h2 : x = y
    · simp only [lexLE, if_neg h1, if_pos h2] at h
      exact Or.inr ⟨h2, h⟩
    · simp only [lexLE, if_neg h1, if_neg h2] at h
      exact absurd h (by simp)

theorem lexLE_total : ∀ (a b : List Char), lexLE a b = true ∨ lexLE b a = true
  | [], _ => Or.inl rfl
  | _ :: _, [] => Or.inr rfl
  | x :: xs, y :: ys => by
      rcases lt_trichotomy x y with h | h | h
      · exact Or.inl (lexLE_of_lt h xs ys)
      · subst h
        rcases lexLE_total xs ys with h2 | h2
        · exact Or.inl (lexLE_cons_eq x h2)
        · exact Or.inr (lexLE_cons_eq x h2)
      · exact Or.inr (lexLE_of_lt h ys xs)

theorem lexLE_trans : ∀ {a b c : List Char},
    lexLE a b = true → lexLE b c = true → lexLE a c = true
  | [], _, _, _, _ => rfl
  | _ :: _, [], _, h1, _ => absurd h1 (by simp [lexLE])
  | _ :: _, _ :: _, [], _, h2 => absurd h2 (by simp [lexLE])
  | x :: xs, y :: ys, z :: zs, h1, h2 => by
      rcases lexLE_head_cases h1 with hx | ⟨hx, hx2⟩
      · rcases lexLE_head_cases h2 with hy | ⟨hy, _⟩
        · exact lexLE_of_lt (lt_trans hx hy) xs zs
        · exact lexLE_of_lt (lt_of_lt_of_eq hx hy) xs zs
      · rcases lexLE_head_cases h2 with hy | ⟨hy, hy2⟩
        · exact lexLE_of_lt (lt_of_eq_of_lt hx hy) xs zs
        · subst hx
          subst hy
          exact lexLE_cons_eq x (lexLE_trans hx2 hy2)

theorem lexLE_antisymm : ∀ {a b : List Char},
    lexLE a b = true → lexLE b a = true → a = b
  | [], [], _, _ => rfl
  | [], _ :: _, _, h2 => absurd h2 (by simp [lexLE])
  | _ :: _, [], h1, _ => absurd h1 (by simp [lexLE])
  | x :: xs, y :: ys, h1, h2 => by
      rcases lexLE_head_cases h1 with hx | ⟨hx, hx2⟩
      · rcases lexLE_head_cases h2 with hy | ⟨hy, _⟩
        · exact absurd (lt_trans hx hy) (lt_irrefl x)
        · exact absurd (lt_of_lt_of_eq hx hy) (lt_irrefl x)
      · rcases lexLE_head_cases h2 with hy | ⟨hy, hy2⟩
        · exact absurd (lt_of_lt_of_eq hy hx) (lt_irrefl y)
        · subst hx
          rw [lexLE_antisymm hx2 hy2]

/-- A permutation between two lists that are both sorted by a relation that
is antisymmetric on their elements forces the lists to be equal; this is the
uniqueness of a stable sort result. -/
theorem sorted_perm_unique {α : Type} {le : α → α → Bool} :
    ∀ {l₁ l₂ : List α}, l₁.Perm l₂ →
      l₁.Pairwise (fun a b => le a b = true) → l₂.Pairwise (fun a b => le a b = true) →
      (∀ a ∈ l₁, ∀ b ∈ l₁, le a b = true → le b a = true → a = b) → l₁ = l₂ := by
  intro l₁
  induction l₁ with
  | nil =>
      intro l₂ hperm _ _ _
      exact (List.Perm.eq_nil hperm.symm).symm
  | cons a t ih =>
      intro l₂ hperm hp1 hp2 hanti
      cases l₂ with
      | nil => exact absurd (List.Perm.eq_nil hperm) (by simp)
      | cons b t₂ =>
          have hab : a = b := by
            by_cases hba : b = a
            · exact hba.symm
            · have hbl1 : b ∈ a :: t := hperm.mem_iff.mpr (List.mem_cons_self b t₂)
              have hbt : b ∈ t := by
                rcases List.mem_cons.mp hbl1 with h | h
                · exact absurd h hba
                · exact h
              have hal2 : a ∈ b :: t₂ := hperm.mem_iff.mp (List.mem_cons_self a t)
              have hat2 : a ∈ t₂ := by
                rcases List.mem_cons.mp hal2 with h | h
                · exact absurd h.symm hba
                · exact h
              have h1 : le a b = true := (List.pairwise_cons.mp hp1).1 b hbt
              have h2 : le b a = true := (List.pairwise_cons.mp hp2).1 a hat2
              exact hanti a (List.mem_cons_self a t) b hbl1 h1 h2
          subst hab
          have hperm2 : t.Perm t₂ := hperm.cons_inv
          rw [ih hperm2 (List.pairwise_cons.mp hp1).2 (List.pairwise_cons.mp hp2).2
            (fun x hx y hy => hanti x (List.mem_cons_of_mem a hx) y (List.mem_cons_of_mem a hy))]

/-- Claim C6, counterexample: the summary is NOT independent of the
insertion order when two distinct groups have case-insensitively equal
names.  The groups `Alpha` (in facility F1) and `alpha` (in facility F2)
have equal sort keys, the sort is stable, so the two insertion orders
produce two different summary lists. -/
theorem c6_counterexample :
    (Option.bind ((Topology.mk []).add_rg "F1" "S1" "Alpha" ⟨"Alpha", 1⟩)
        (fun t => t.add_rg "F2" "S2" "alpha" ⟨"alpha", 2⟩)).map Topology.get_resource_summary =
      some (Except.ok [⟨"Alpha", 1⟩, ⟨"alpha", 2⟩]) ∧
    (Option.bind ((Topology.mk []).add_rg "F2" "S2" "alpha" ⟨"alpha", 2⟩)
        (fun t => t.add_rg "F1" "S1" "Alpha" ⟨"Alpha", 1⟩)).map Topology.get_resource_summary =
      some (Except.ok [⟨"alpha", 2⟩, ⟨"Alpha", 1⟩]) ∧
    ([⟨"Alpha", 1⟩, ⟨"alpha", 2⟩] : List RG) ≠ [⟨"alpha", 2⟩, ⟨"Alpha", 1⟩] := by
  refine ⟨rfl, rfl, by decide⟩

/-- Claim C6, amended: every produced summary list is sorted by the
case-insensitive group-name ordering, and the summary is the same for any
two stores whose flattened record collections are permutations of one
another, PROVIDED the lowercased group names of the records are pairwise
distinct (with case-insensitive ties the stable sort preserves the
discovery order, see the counterexample). -/
theorem c6_theorem (t₁ t₂ : Topology) (l₁ l₂ : List RG)
    (h₁ : collect_rgs t₁.data = Except.ok l₁) (h₂ : collect_rgs t₂.data = Except.ok l₂)
    (hperm : l₁.Perm l₂)
    (hinj : ∀ a ∈ l₁, ∀ b ∈ l₁, lowerChars a.GroupName = lowerChars b.GroupName → a = b) :
    (∀ (t : Topology) (l : List RG), t.get_resource_summary = Except.ok l →
        l.Pairwise (fun a b => rgLE a b = true)) ∧
    t₁.get_resource_summary = t₂.get_resource_summary := by
  haveI htot : IsTotal RG (fun a b => rgLE a b = true) := ⟨fun a b => lexLE_total _ _⟩
  haveI htrans : IsTrans RG (fun a b => rgLE a b = true) :=
    ⟨fun _ _ _ hab hbc => lexLE_trans hab hbc⟩
  constructor
  · intro t l h
    simp only [Topology.get_resource_summary] at h
    cases hc : collect_rgs t.data with
    | error e => rw [hc] at h; exact absurd h (by simp [Except.map])
    | ok l0 =>
        rw [hc] at h
        simp only [Except.map, Except.ok.injEq] at h
        subst h
        exact List.sorted_insertionSort (fun a b => rgLE a b = true) l0
  · simp only [Topology.get_resource_summary, h₁, h₂, Except.map]
    have hsort : List.insertionSort (fun a b => rgLE a b = true) l₁ =
        List.insertionSort (fun a b => rgLE a b = true) l₂ := by
      apply sorted_perm_unique
      · exact ((List.perm_insertionSort _ l₁).trans hperm).trans
          (List.perm_insertionSort _ l₂).symm
      · exact List.sorted_insertionSort (fun a b => rgLE a b = true) l₁
      · exact List.sorted_insertionSort (fun a b => rgLE a b = true) l₂
      · intro a ha b hb hab hba
        have ha1 : a ∈ l₁ := (List.perm_insertionSort _ l₁).mem_iff.mp ha
        have hb1 : b ∈ l₁ := (List.perm_insertionSort _ l₁).mem_iff.mp hb
        exact hinj a ha1 b hb1 (lexLE_antisymm hab hba)
    rw [hsort]

/-- Claim C6, witness: the amended theorem applied to the two insertion
orders of the groups `Bravo` and `alpha`; both orders give the sorted
output with `alpha` before `Bravo`. -/
theorem c6_witness :
    (Topology.mk [("F1", [("S1", FVal.site [("Bravo", SVal.grp ⟨"Bravo", 1⟩)])]),
        ("F2", [("S2", FVal.site [("alpha", SVal.grp ⟨"alpha", 2⟩)])])]).get_resource_summary =
      (Topology.mk [("F2", [("S2", FVal.site [("alpha", SVal.grp ⟨"alpha", 2⟩)])]),
        ("F1", [("S1", FVal.site [("Bravo", SVal.grp ⟨"Bravo", 1⟩)])])]).get_resource_summary ∧
    (Topology.mk [("F1", [("S1", FVal.site [("Bravo", SVal.grp ⟨"Bravo", 1⟩)])]),
        ("F2", [("S2", FVal.site [("alpha", SVal.grp ⟨"alpha", 2⟩)])])]).get_resource_summary =
      Except.ok [⟨"alpha", 2⟩, ⟨"Bravo", 1⟩] := by
  constructor
  · exact (c6_theorem
      ⟨[("F1", [("S1", FVal.site [("Bravo", SVal.grp ⟨"Bravo", 1⟩)])]),
        ("F2", [("S2", FVal.site [("alpha", SVal.grp ⟨"alpha", 2⟩)])])]⟩
      ⟨[("F2", [("S2", FVal.site [("alpha", SVal.grp ⟨"alpha", 2⟩)])]),
        ("F1", [("S1", FVal.site [("Bravo", SVal.grp ⟨"Bravo", 1⟩)])])]⟩
      [⟨"Bravo", 1⟩, ⟨"alpha", 2⟩] [⟨"alpha", 2⟩, ⟨"Bravo", 1⟩]
      rfl rfl (List.Perm.swap _ _ _) (by decide)).2
  · rfl

/-! ## Claim about resource expansion (C9)

The proofs track each expansion step through the lookups it can affect. -/

theorem exp_step_services_other {tbl : List (String × Nat)} {res r : List (String × RVal)}
    (h : exp_step_services tbl res = Except.ok r) :
    ∀ k, k ≠ "Services" → dlookup r k = dlookup res k := by
  intro k hk
  simp only [exp_step_services] at h
  by_cases hn : is_null res "Services"
  · simp only [hn, Bool.not_true, Bool.false_eq_true, if_false, pure, Except.pure,
      Except.ok.injEq] at h
    subst h
    rw [dlookup_dpop]
    exact if_neg (fun he => hk he.symm)
  · simp only [hn, Bool.not_false, if_true] at h
    split at h
    · rename_i l hl
      cases he : expand_services l tbl with
      | error e => rw [he] at h; exact absurd h (by simp [Except.map])
      | ok el =>
          rw [he] at h
          simp only [Except.map, Except.ok.injEq] at h
          subst h
          rw [dlookup_dinsert]
          exact if_neg (fun hh => hk hh.symm)
    · exact absurd h (by simp)

theorem exp_step_services_absent {tbl : List (String × Nat)} {res r : List (String × RVal)}
    (h : exp_step_services tbl res = Except.ok r) (ha : dlookup res "Services" = none) :
    dlookup r "Services" = none := by
  simp only [exp_step_services, is_null, ha, Bool.not_true, Bool.false_eq_true, if_false,
    pure, Except.pure, Except.ok.injEq] at h
  subst h
  rw [dlookup_dpop, if_pos rfl]

theorem exp_step_voown_other {res r : List (String × RVal)}
    (h : exp_step_voown res = Except.ok r) :
    ∀ k, k ≠ "VOOwnership" → dlookup r k = dlookup res k := by
  intro k hk
  simp only [exp_step_voown] at h
  by_cases hm : dmem res "VOOwnership"
  · simp only [hm, if_true] at h
    split at h
    · rename_i l hl
      simp only [pure, Except.pure, Except.ok.injEq] at h
      subst h
      rw [dlookup_dinsert]
      exact if_neg (fun hh => hk hh.symm)
    · exact absurd h (by simp)
  · simp only [hm, Bool.false_eq_true, if_false, pure, Except.pure, Except.ok.injEq] at h
    subst h
    rfl

theorem exp_step_voown_absent {res : List (String × RVal)}
    (ha : dlookup res "VOOwnership" = none) : exp_step_voown res = Except.ok res := by
  simp [exp_step_voown, dmem, ha, pure, Except.pure]

theorem exp_step_aliases_other (res : List (String × RVal)) :
    ∀ k, k ≠ "FQDNAliases" → dlookup (exp_step_aliases res) k = dlookup res k := by
  intro k hk
  simp only [exp_step_aliases]
  by_cases hm : dmem res "FQDNAliases"
  · simp only [hm, if_true]
    split
    · rw [dlookup_dinsert]
      exact if_neg (fun hh => hk hh.symm)
    · rfl
  · simp only [hm, Bool.false_eq_true, if_false]

theorem exp_step_aliases_absent {res : List (String × RVal)}
    (ha : dlookup res "FQDNAliases" = none) : exp_step_aliases res = res := by
  simp [exp_step_aliases, dmem, ha]

theorem exp_step_contacts_other {res r : List (String × RVal)}
    (h : exp_step_contacts res = Except.ok r) :
    ∀ k, k ≠ "ContactLists" → dlookup r k = dlookup res k := by
  intro k hk
  simp only [exp_step_contacts] at h
  by_cases hn : is_null res "ContactLists"
  · simp only [hn, Bool.not_true, Bool.false_eq_true, if_false, pure, Except.pure,
      Except.ok.injEq] at h
    subst h
    rfl
  · simp only [hn, Bool.not_false, if_true] at h
    split at h
    · rename_i l hl
      simp only [pure, Except.pure, Except.ok.injEq] at h
      subst h
      rw [dlookup_dinsert]
      exact if_neg (fun hh => hk hh.symm)
    · exact absurd h (by simp)

theorem exp_step_contacts_absent {res : List (String × RVal)}
    (ha : dlookup res "ContactLists" = none) : exp_step_contacts res = Except.ok res := by
  simp [exp_step_contacts, is_null, ha, pure, Except.pure]

theorem exp_step_name_other (name : String) (res : List (String × RVal)) :
    ∀ k, k ≠ "Name" → dlookup (exp_step_name name res) k = dlookup res k := by
  intro k hk
  simp only [exp_step_name]
  rw [dlookup_dinsert]
  exact if_neg (fun hh => hk hh.symm)

theorem exp_step_name_self (name : String) (res : List (String × RVal)) :
    dlookup (exp_step_name name res) "Name" = some (RVal.str name) := by
  simp only [exp_step_name]
  rw [dlookup_dinsert, if_pos rfl]

theorem exp_step_wlcg_other (res : List (String × RVal)) :
    ∀ k, k ≠ "WLCGInformation" → dlookup (exp_step_wlcg res) k = dlookup res k := by
  intro k hk
  simp only [exp_step_wlcg]
  by_cases hm : dmem res "WLCGInformation"
  · simp only [hm, if_true]
    split
    · rw [dlookup_dinsert]
      exact if_neg (fun hh => hk hh.symm)
    · rfl
  · simp only [hm, Bool.false_eq_true, if_false]

theorem exp_step_wlcg_absent {res : List (String × RVal)}
    (ha : dlookup res "WLCGInformation" = none) : exp_step_wlcg res = res := by
  simp [exp_step_wlcg, dmem, ha]

theorem equiv_dinsert {d₁ d₂ : List (String × RVal)}
    (hq : ∀ k, dlookup d₁ k = dlookup d₂ k) (k0 : String) (v : RVal) :
    ∀ k, dlookup (dinsert d₁ k0 v) k = dlookup (dinsert d₂ k0 v) k := by
  intro k
  rw [dlookup_dinsert, dlookup_dinsert]
  by_cases hk : k0 = k
  · simp [hk]
  · simp [hk, hq k]

theorem equiv_dpop {d₁ d₂ : List (String × RVal)}
    (hq : ∀ k, dlookup d₁ k = dlookup d₂ k) (k0 : String) :
    ∀ k, dlookup (dpop d₁ k0) k = dlookup (dpop d₂ k0) k := by
  intro k
  rw [dlookup_dpop, dlookup_dpop]
  by_cases hk : k0 = k
  · simp [hk]
  · simp [hk, hq k]

theorem exp_step_services_congr {tbl : List (String × Nat)} {d₁ d₂ r : List (String × RVal)}
    (hq : ∀ k, dlookup d₁ k = dlookup d₂ k) (h : exp_step_services tbl d₁ = Except.ok r) :
    ∃ r', exp_step_services tbl d₂ = Except.ok r' ∧ ∀ k, dlookup r k = dlookup r' k := by
  have hisn : is_null d₂ "Services" = is_null d₁ "Services" := by
    simp only [is_null, ← hq "Services"]
  simp only [exp_step_services] at h ⊢
  rw [hisn, ← hq "Services"]
  by_cases hn : is_null d₁ "Services"
  · simp only [hn, Bool.not_true, Bool.false_eq_true, if_false, pure, Except.pure,
      Except.ok.injEq] at h ⊢
    subst h
    exact ⟨dpop d₂ "Services", rfl, equiv_dpop hq "Services"⟩
  · simp only [hn, Bool.not_false, if_true] at h ⊢
    split at h
    · rename_i l hl
      cases he : expand_services l tbl with
      | error e => rw [he] at h; exact absurd h (by simp [Except.map])
      | ok el =>
          rw [he] at h
          simp only [Except.map, Except.ok.injEq] at h
          subst h
          exact ⟨dinsert d₂ "Services" (RVal.expServices el), rfl,
            equiv_dinsert hq "Services" (RVal.expServices el)⟩
    · exact absurd h (by simp)

theorem exp_step_voown_congr {d₁ d₂ r : List (String × RVal)}
    (hq : ∀ k, dlookup d₁ k = dlookup d₂ k) (h : exp_step_voown d₁ = Except.ok r) :
    ∃ r', exp_step_voown d₂ = Except.ok r' ∧ ∀ k, dlookup r k = dlookup r' k := by
  have hm2 : dmem d₂ "VOOwnership" = dmem d₁ "VOOwnership" := by
    simp only [dmem, ← hq "VOOwnership"]
  simp only [exp_step_voown] at h ⊢
  rw [hm2, ← hq "VOOwnership"]
  by_cases hm : dmem d₁ "VOOwnership"
  · simp only [hm, if_true] at h ⊢
    split at h
    · rename_i l hl
      simp only [pure, Except.pure, Except.ok.injEq] at h
      subst h
      exact ⟨_, rfl, equiv_dinsert hq "VOOwnership" _⟩
    · exact absurd h (by simp)
  · simp only [hm, Bool.false_eq_true, if_false, pure, Except.pure, Except.ok.injEq] at h ⊢
    subst h
    exact ⟨d₂, rfl, hq⟩

theorem exp_step_aliases_congr {d₁ d₂ : List (String × RVal)}
    (hq : ∀ k, dlookup d₁ k = dlookup d₂ k) :
    ∀ k, dlookup (exp_step_aliases d₁) k = dlookup (exp_step_aliases d₂) k := by
  have hm2 : dmem d₂ "FQDNAliases" = dmem d₁ "FQDNAliases" := by
    simp only [dmem, ← hq "FQDNAliases"]
  simp only [exp_step_aliases]
  rw [hm2, ← hq "FQDNAliases"]
  by_cases hm : dmem d₁ "FQDNAliases"
  · simp only [hm, if_true]
    cases hl : dlookup d₁ "FQDNAliases" with
    | none => exact hq
    | some v => exact equiv_dinsert hq "FQDNAliases" _
  · simp only [hm, Bool.false_eq_true, if_false]
    exact hq

theorem exp_step_contacts_congr {d₁ d₂ r : List (String × RVal)}
    (hq : ∀ k, dlookup d₁ k = dlookup d₂ k) (h : exp_step_contacts d₁ = Except.ok r) :
    ∃ r', exp_step_contacts d₂ = Except.ok r' ∧ ∀ k, dlookup r k = dlookup r' k := by
  have hisn : is_null d₂ "ContactLists" = is_null d₁ "ContactLists" := by
    simp only [is_null, ← hq "ContactLists"]
  simp only [exp_step_contacts] at h ⊢
  rw [hisn, ← hq "ContactLists"]
  by_cases hn : is_null d₁ "ContactLists"
  · simp only [hn, Bool.not_true, Bool.false_eq_true, if_false, pure, Except.pure,
      Except.ok.injEq] at h ⊢
    subst h
    exact ⟨d₂, rfl, hq⟩
  · simp only [hn, Bool.not_false, if_true] at h ⊢
    split at h
    · rename_i l hl
      simp only [pure, Except.pure, Except.ok.injEq] at h
      subst h
      exact ⟨_, rfl, equiv_dinsert hq "ContactLists" _⟩
    · exact absurd h (by simp)

theorem exp_step_name_congr {d₁ d₂ : List (String × RVal)} (name : String)
    (hq : ∀ k, dlookup d₁ k = dlookup d₂ k) :
    ∀ k, dlookup (exp_step_name name d₁) k = dlookup (exp_step_name name d₂) k := by
  simp only [exp_step_name]
  exact equiv_dinsert hq "Name" _

theorem exp_step_wlcg_congr {d₁ d₂ : List (String × RVal)}
    (hq : ∀ k, dlookup d₁ k = dlookup d₂ k) :
    ∀ k, dlookup (exp_step_wlcg d₁) k = dlookup (exp_step_wlcg d₂) k := by
  have hm2 : dmem d₂ "WLCGInformation" = dmem d₁ "WLCGInformation" := by
    simp only [dmem, ← hq "WLCGInformation"]
  simp only [exp_step_wlcg]
  rw [hm2, ← hq "WLCGInformation"]
  by_cases hm : dmem d₁ "WLCGInformation"
  · simp only [hm, if_true]
    cases hl : dlookup d₁ "WLCGInformation" with
    | none => exact hq
    | some v =>
        cases v with
        | wlcgRaw w => exact equiv_dinsert hq "WLCGInformation" _
        | null => exact hq
        | str s => exact hq
        | num n => exact hq
        | boolean b => exact hq
        | rawServices l => exact hq
        | expServices l => exact hq
        | rawVOOwn l => exact hq
        | expVOOwn o c => exact hq
        | wrapped t v => exact hq
        | rawContacts l => exact hq
        | expContacts l => exact hq
        | wlcgExp d => exact hq
  · simp only [hm, Bool.false_eq_true, if_false]
    exact hq

theorem exp_reassemble_congr {d₁ d₂ : List (String × RVal)}
    (hq : ∀ k, dlookup d₁ k = dlookup d₂ k) : exp_reassemble d₁ = exp_reassemble d₂ := by
  simp only [exp_reassemble]
  apply List.filterMap_congr
  intro e _
  rw [hq e]

theorem reassemble_keys_aux (d : List (String × RVal)) : ∀ L : List String,
    ((L.filterMap (fun e =>
      match dlookup d e with
      | some v => some (e, v)
      | none =>
          match dlookup res_defaults e with
          | some dv => some (e, dv)
          | none => none)).map Prod.fst) =
      L.filter (fun e => dmem d e || dmem res_defaults e)
  | [] => rfl
  | e :: L => by
      cases h1 : dlookup d e with
      | some v =>
          simp [List.filterMap_cons, List.filter_cons, h1, dmem, reassemble_keys_aux d L]
      | none =>
          cases h2 : dlookup res_defaults e with
          | some dv =>
              simp [List.filterMap_cons, List.filter_cons, h1, h2, dmem,
                reassemble_keys_aux d L]
          | none =>
              simp [List.filterMap_cons, List.filter_cons, h1, h2, dmem,
                reassemble_keys_aux d L]

theorem exp_reassemble_keys (d : List (String × RVal)) :
    (exp_reassemble d).map Prod.fst =
      res_field_order.filter (fun e => dmem d e || dmem res_defaults e) :=
  reassemble_keys_aux d res_field_order

theorem dlookup_cons_self {α : Type} (k : String) (v : α) (rest : List (String × α)) :
    dlookup ((k, v) :: rest) k = some v := by
  simp [dlookup]

theorem dlookup_cons_ne {α : Type} {x k : String} (v : α) (rest : List (String × α))
    (h : x ≠ k) : dlookup ((x, v) :: rest) k = dlookup rest k := by
  simp [dlookup, h]

theorem dlookup_reassemble_not_mem (d : List (String × RVal)) {e : String} :
    ∀ {L : List String}, e ∉ L →
    dlookup (L.filterMap (fun x =>
      match dlookup d x with
      | some v => some (x, v)
      | none =>
          match dlookup res_defaults x with
          | some dv => some (x, dv)
          | none => none)) e = none := by
  intro L
  induction L with
  | nil => intro _; rfl
  | cons x L ih =>
      intro hne
      have hx : x ≠ e := fun h => hne (h ▸ List.mem_cons_self x L)
      have hL : e ∉ L := fun h => hne (List.mem_cons_of_mem x h)
      cases h1 : dlookup d x with
      | some v =>
          simp only [List.filterMap_cons, h1]
          rw [dlookup_cons_ne _ _ hx]
          exact ih hL
      | none =>
          cases h2 : dlookup res_defaults x with
          | some dv =>
              simp only [List.filterMap_cons, h1, h2]
              rw [dlookup_cons_ne _ _ hx]
              exact ih hL
          | none =>
              simp only [List.filterMap_cons, h1, h2]
              exact ih hL

theorem dlookup_reassemble_mem (d : List (String × RVal)) {e : String} :
    ∀ {L : List String}, e ∈ L → L.Nodup →
    dlookup (L.filterMap (fun x =>
      match dlookup d x with
      | some v => some (x, v)
      | none =>
          match dlookup res_defaults x with
          | some dv => some (x, dv)
          | none => none)) e =
      (match dlookup d e with
       | some v => some v
       | none => dlookup res_defaults e) := by
  intro L
  induction L with
  | nil => intro h; exact absurd h (by simp)
  | cons x L ih =>
      intro hmem hnd
      rcases List.mem_cons.mp hmem with hex | heL
      · subst hex
        have heL2 : e ∉ L := (List.nodup_cons.mp hnd).1
        cases h1 : dlookup d e with
        | some v =>
            simp only [List.filterMap_cons, h1]
            rw [dlookup_cons_self]
        | none =>
            cases h2 : dlookup res_defaults e with
            | some dv =>
                simp only [List.filterMap_cons, h1, h2]
                rw [dlookup_cons_self]
            | none =>
                simp only [List.filterMap_cons, h1, h2]
                rw [dlookup_reassemble_not_mem d heL2]
      · have hx : x ≠ e := by
          intro h
          subst h
          exact (List.nodup_cons.mp hnd).1 heL
        cases h1 : dlookup d x with
        | some v =>
            simp only [List.filterMap_cons, h1]
            rw [dlookup_cons_ne _ _ hx]
            exact ih heL (List.nodup_cons.mp hnd).2
        | none =>
            cases h2 : dlookup res_defaults x with
            | some dv =>
                simp only [List.filterMap_cons, h1, h2]
                rw [dlookup_cons_ne _ _ hx]
                exact ih heL (List.nodup_cons.mp hnd).2
            | none =>
                simp only [List.filterMap_cons, h1, h2]
                exact ih heL (List.nodup_cons.mp hnd).2

theorem dlookup_reassemble (d : List (String × RVal)) {e : String} (he : e ∈ res_field_order) :
    dlookup (exp_reassemble d) e =
      (match dlookup d e with
       | some v => some v
       | none => dlookup res_defaults e) :=
  dlookup_reassemble_mem d he (by decide)

/-- Claim C9: for every raw resource record (no duplicate keys, as for any
Python dict), a successful expansion yields a record whose keys are exactly
the fixed field order filtered to the fields present in the input, the five
defaulted fields, and the inserted `Name`; the expansion result is the same
for any permutation of the input fields; and every defaulted field absent
from the input carries its configured default value in the output. -/
theorem c9_theorem (name : String) (res₁ res₂ : List (String × RVal))
    (tbl : List (String × Nat)) (out : List (String × RVal))
    (hnd : (res₁.map Prod.fst).Nodup) (hperm : res₁.Perm res₂)
    (hok : expand_resource name res₁ tbl = Except.ok out) :
    expand_resource name res₂ tbl = Except.ok out ∧
    out.map Prod.fst =
      res_field_order.filter (fun e => dmem res₁ e || dmem res_defaults e || e == "Name") ∧
    (∀ e, dmem res_defaults e = true → dmem res₁ e = false →
      dlookup out e = dlookup res_defaults e) := by
  simp only [expand_resource, Bind.bind, Except.bind] at hok
  split at hok
  · exact absurd hok (by simp)
  rename_i r1 hs1
  split at hok
  · exact absurd hok (by simp)
  rename_i r2 hs2
  split at hok
  · exact absurd hok (by simp)
  rename_i r4 hs4
  simp only [pure, Except.pure, Except.ok.injEq] at hok
  subst hok
  have hother : ∀ k, k ≠ "Services" → k ≠ "VOOwnership" → k ≠ "FQDNAliases" →
      k ≠ "ContactLists" → k ≠ "Name" → k ≠ "WLCGInformation" →
      dlookup (exp_step_wlcg (exp_step_name name r4)) k = dlookup res₁ k := by
    intro k k1 k2 k3 k4 k5 k6
    rw [exp_step_wlcg_other _ k k6, exp_step_name_other name _ k k5,
        exp_step_contacts_other hs4 k k4, exp_step_aliases_other _ k k3,
        exp_step_voown_other hs2 k k2, exp_step_services_other hs1 k k1]
  refine ⟨?_, ?_, ?_⟩
  · have hq0 : ∀ k, dlookup res₁ k = dlookup res₂ k := dlookup_eq_of_perm hnd hperm
    obtain ⟨r1', hs1', hq1⟩ := exp_step_services_congr hq0 hs1
    obtain ⟨r2', hs2', hq2⟩ := exp_step_voown_congr hq1 hs2
    have hq3 := exp_step_aliases_congr hq2
    obtain ⟨r4', hs4', hq4⟩ := exp_step_contacts_congr hq3 hs4
    have hq5 := exp_step_name_congr name hq4
    have hq6 := exp_step_wlcg_congr hq5
    have hre := exp_reassemble_congr hq6
    simp only [expand_resource, Bind.bind, Except.bind, hs1', hs2', hs4', pure, Except.pure]
    rw [← hre]
  · rw [exp_reassemble_keys]
    apply List.filter_congr
    intro e he
    fin_cases he
    · have h := hother "ID" (by decide) (by decide) (by decide) (by decide) (by decide)
        (by decide)
      simp [dmem, h, dlookup, res_defaults]
    · have h := exp_step_wlcg_other (exp_step_name name r4) "Name" (by decide)
      simp [dmem, h, exp_step_name_self, dlookup, res_defaults]
    · have h := hother "Active" (by decide) (by decide) (by decide) (by decide) (by decide)
        (by decide)
      simp [dmem, h, dlookup, res_defaults]
    · have h := hother "Disable" (by decide) (by decide) (by decide) (by decide) (by decide)
        (by decide)
      simp [dmem, h, dlookup, res_defaults]
    · simp [show dmem res_defaults "Services" = true from rfl]
    · have h := hother "Description" (by decide) (by decide) (by decide) (by decide)
        (by decide) (by decide)
      simp [dmem, h, dlookup, res_defaults]
    · have h := hother "FQDN" (by decide) (by decide) (by decide) (by decide) (by decide)
        (by decide)
      simp [dmem, h, dlookup, res_defaults]
    · simp [show dmem res_defaults "FQDNAliases" = true from rfl]
    · simp [show dmem res_defaults "VOOwnership" = true from rfl]
    · simp [show dmem res_defaults "WLCGInformation" = true from rfl]
    · simp [show dmem res_defaults "ContactLists" = true from rfl]
  · intro e hedef habs
    have h0 : dlookup res₁ e = none := dlookup_of_dmem_false habs
    by_cases ec : e = "ContactLists"
    · subst ec
      have h1 : dlookup r1 "ContactLists" = dlookup res₁ "ContactLists" :=
        exp_step_services_other hs1 _ (by decide)
      have h2 : dlookup r2 "ContactLists" = dlookup r1 "ContactLists" :=
        exp_step_voown_other hs2 _ (by decide)
      have h3 : dlookup (exp_step_aliases r2) "ContactLists" = dlookup r2 "ContactLists" :=
        exp_step_aliases_other r2 _ (by decide)
      have h3n : dlookup (exp_step_aliases r2) "ContactLists" = none := by
        rw [h3, h2, h1, h0]
      have h4 : r4 = exp_step_aliases r2 := by
        have := exp_step_contacts_absent h3n
        rw [this] at hs4
        exact (Except.ok.injEq _ _).mp hs4.symm
      have h6 : dlookup (exp_step_wlcg (exp_step_name name r4)) "ContactLists" = none := by
        rw [exp_step_wlcg_other _ _ (by decide), exp_step_name_other name _ _ (by decide),
          h4, h3n]
      rw [dlookup_reassemble _ (by decide), h6]
    · by_cases ef : e = "FQDNAliases"
      · subst ef
        have h1 : dlookup r1 "FQDNAliases" = dlookup res₁ "FQDNAliases" :=
          exp_step_services_other hs1 _ (by decide)
        have h2 : dlookup r2 "FQDNAliases" = dlookup r1 "FQDNAliases" :=
          exp_step_voown_other hs2 _ (by decide)
        have h2n : dlookup r2 "FQDNAliases" = none := by rw [h2, h1, h0]
        have h3 : exp_step_aliases r2 = r2 := exp_step_aliases_absent h2n
        have h6 : dlookup (exp_step_wlcg (exp_step_name name r4)) "FQDNAliases" = none := by
          rw [exp_step_wlcg_other _ _ (by decide), exp_step_name_other name _ _ (by decide),
            exp_step_contacts_other hs4 _ (by decide), h3, h2n]
        rw [dlookup_reassemble _ (by decide), h6]
      · by_cases es : e = "Services"
        · subst es
          have h1 : dlookup r1 "Services" = none :=
            exp_step_services_absent hs1 h0
          have h6 : dlookup (exp_step_wlcg (exp_step_name name r4)) "Services" = none := by
            rw [exp_step_wlcg_other _ _ (by decide), exp_step_name_other name _ _ (by decide),
              exp_step_contacts_other hs4 _ (by decide), exp_step_aliases_other r2 _ (by decide),
              exp_step_voown_other hs2 _ (by decide), h1]
          rw [dlookup_reassemble _ (by decide), h6]
        · by_cases ev : e = "VOOwnership"
          · subst ev
            have h1 : dlookup r1 "VOOwnership" = dlookup res₁ "VOOwnership" :=
              exp_step_services_other hs1 _ (by decide)
            have h1n : dlookup r1 "VOOwnership" = none := by rw [h1, h0]
            have h2 : r2 = r1 := by
              have := exp_step_voown_absent h1n
              rw [this] at hs2
              exact (Except.ok.injEq _ _).mp hs2.symm
            have h6 : dlookup (exp_step_wlcg (exp_step_name name r4)) "VOOwnership" = none := by
              rw [exp_step_wlcg_other _ _ (by decide), exp_step_name_other name _ _ (by decide),
                exp_step_contacts_other hs4 _ (by decide),
                exp_step_aliases_other r2 _ (by decide), h2, h1n]
            rw [dlookup_reassemble _ (by decide), h6]
          · by_cases ew : e = "WLCGInformation"
            · subst ew
              have h1 : dlookup r1 "WLCGInformation" = dlookup res₁ "WLCGInformation" :=
                exp_step_services_other hs1 _ (by decide)
              have h2 : dlookup r2 "WLCGInformation" = dlookup r1 "WLCGInformation" :=
                exp_step_voown_other hs2 _ (by decide)
              have h5n : dlookup (exp_step_name name r4) "WLCGInformation" = none := by
                rw [exp_step_name_other name _ _ (by decide),
                  exp_step_contacts_other hs4 _ (by decide),
                  exp_step_aliases_other r2 _ (by decide), h2, h1, h0]
              have h6 : dlookup (exp_step_wlcg (exp_step_name name r4)) "WLCGInformation" =
                  none := by
                rw [exp_step_wlcg_absent h5n, h5n]
              rw [dlookup_reassemble _ (by decide), h6]
            · exfalso
              have hnone : dlookup res_defaults e = none := by
                apply dlookup_eq_none_of_not_mem
                intro p hp
                simp only [res_defaults] at hp
                fin_cases hp
                · exact fun h => ec h.symm
                · exact fun h => ef h.symm
                · exact fun h => es h.symm
                · exact fun h => ev h.symm
                · exact fun h => ew h.symm
              simp only [dmem, hnone] at hedef
              exact absurd hedef (by simp)

/-- Claim C9, witness: the theorem applied to a two-field record given in
two different field orders.  Both orders expand to the same record: ID and
Name first, the placeholder for `Services`, the FQDN, then the defaults for
the remaining defaulted fields; `Active`, `Disable` and `Description` are
absent and omitted. -/
theorem c9_witness :
    expand_resource "R1" [("ID", RVal.num 1), ("FQDN", RVal.str "a.example")] [] =
      Except.ok [("ID", RVal.num 1), ("Name", RVal.str "R1"),
        ("Services", RVal.str "no applicable service exists"),
        ("FQDN", RVal.str "a.example"), ("FQDNAliases", RVal.null),
        ("VOOwnership", RVal.str "(Information not available)"),
        ("WLCGInformation", RVal.str "(Information not available)"),
        ("ContactLists", RVal.null)] ∧
    List.map Prod.fst [("ID", RVal.num 1), ("Name", RVal.str "R1"),
        ("Services", RVal.str "no applicable service exists"),
        ("FQDN", RVal.str "a.example"), ("FQDNAliases", RVal.null),
        ("VOOwnership", RVal.str "(Information not available)"),
        ("WLCGInformation", RVal.str "(Information not available)"),
        ("ContactLists", RVal.null)] =
      res_field_order.filter (fun e =>
        dmem [("FQDN", RVal.str "a.example"), ("ID", RVal.num 1)] e ||
        dmem res_defaults e || e == "Name") ∧
    dlookup [("ID", RVal.num 1), ("Name", RVal.str "R1"),
        ("Services", RVal.str "no applicable service exists"),
        ("FQDN", RVal.str "a.example"), ("FQDNAliases", RVal.null),
        ("VOOwnership", RVal.str "(Information not available)"),
        ("WLCGInformation", RVal.str "(Information not available)"),
        ("ContactLists", RVal.null)] "VOOwnership" = dlookup res_defaults "VOOwnership" := by
  have h := c9_theorem "R1" [("FQDN", RVal.str "a.example"), ("ID", RVal.num 1)]
      [("ID", RVal.num 1), ("FQDN", RVal.str "a.example")] []
      [("ID", RVal.num 1), ("Name", RVal.str "R1"),
        ("Services", RVal.str "no applicable service exists"),
        ("FQDN", RVal.str "a.example"), ("FQDNAliases", RVal.null),
        ("VOOwnership", RVal.str "(Information not available)"),
        ("WLCGInformation", RVal.str "(Information not available)"),
        ("ContactLists", RVal.null)]
      (by decide) (List.Perm.swap _ _ _) (by rfl)
  exact ⟨h.1, h.2.1, h.2.2 "VOOwnership" rfl rfl⟩
